import Mathlib

/-!
Verification of the KF-monitoring item classification, scoring, deduplication,
ranking and bucketing engine.  The Python sources (`helpers.py`,
`daily_report.py`, `urgent_watcher.py`, `weekly_reviews.py`) are shallowly
embedded: texts are lists of characters, machine integers are `Int`/`Nat`,
Python floats are modelled as exact rationals (`ℚ`), optional values are
`Option`.  All regular expressions in the relevant functions are plain
alternations of literal words, so regex search is modelled as substring
containment on lowercased text.
-/

/-! ## Text primitives -/

/-- `leadsWith pre l` is true iff `pre` is an initial segment of `l`
(model of Python prefix matching used for `re.sub("^https?://", ...)`). -/
def leadsWith : List Char → List Char → Bool
  | [], _ => true
  | _ :: _, [] => false
  | a :: as, b :: bs => a = b && leadsWith as bs

/-- `hasSub needle hay` is true iff `needle` occurs contiguously in `hay`
(model of Python `needle in hay` and of `re.search` for a literal word). -/
def hasSub (needle : List Char) : List Char → Bool
  | [] => needle.isEmpty
  | c :: rest => leadsWith needle (c :: rest) || hasSub needle rest

/-- `trailsWith suf l` is true iff `suf` is a final segment of `l`
(model of Python `str.endswith`). -/
def trailsWith (suf l : List Char) : Bool :=
  leadsWith suf.reverse l.reverse

/-- Model of Python `str.lower` on one character, restricted to the ASCII
letters and the German umlauts that occur in the keyword tables. -/
def lowerChar (c : Char) : Char :=
  if 'A' ≤ c ∧ c ≤ 'Z' then Char.ofNat (c.toNat + 32)
  else if c = 'Ä' then 'ä'
  else if c = 'Ö' then 'ö'
  else if c = 'Ü' then 'ü'
  else c

/-- Model of Python `str.lower` on a text. -/
def lowerStr (s : List Char) : List Char := s.map lowerChar

/-- The Python regex class `\s` (as used on these ASCII/Latin texts). -/
def isWs (c : Char) : Bool :=
  c = ' ' || c = '\t' || c = '\n' || c = '\r' || c = Char.ofNat 11 || c = Char.ofNat 12

/-- State-machine model of `re.sub(r"\s+", " ", s)`: every maximal run of
whitespace is replaced by a single space; nothing is trimmed.  The flag
records whether the previous character belonged to a whitespace run. -/
def collapseWsAux : Bool → List Char → List Char
  | _, [] => []
  | prevWs, c :: rest =>
    if isWs c then
      (if prevWs then collapseWsAux true rest else ' ' :: collapseWsAux true rest)
    else c :: collapseWsAux false rest

/-- `re.sub(r"\s+", " ", s)` from the dedup key in `daily_report.fetch_news`. -/
def collapseWs (l : List Char) : List Char := collapseWsAux false l

/-! ## helpers.py -/

namespace Helpers

/-- `BOULEVARD_DOMAINS` from `helpers.py`. -/
def BOULEVARD_DOMAINS : List (List Char) :=
  ["bild.de".data, "express.de".data, "tz.de".data, "promiflash.de".data]

/-- `SERIOUS_HINTS` from `helpers.py`. -/
def SERIOUS_HINTS : List (List Char) :=
  ["handelsblatt".data, "lebensmittelzeitung".data, "faz.net".data,
   "sueddeutsche".data, "zeit.de".data, "tagesschau".data, "spiegel.de".data]

/-- `re.sub(r"^https?://", "", url)` from `helpers.classify`. -/
def stripScheme (url : List Char) : List Char :=
  if leadsWith "https://".data url then url.drop 8
  else if leadsWith "http://".data url then url.drop 7
  else url

/-- `re.sub(r"^https?://", "", url).split("/")[0]` from `helpers.classify`. -/
def hostOf (url : List Char) : List Char :=
  (stripScheme url).takeWhile (fun c => c ≠ '/')

/-- The high-impact title keywords of `helpers.classify`
(`r"Umsatz|Eröffnung|Rückruf|Skandal|Boykott|Krise|ESG|Invest"`, matched
case-insensitively, hence stored lowercased). -/
def highImpact : List (List Char) :=
  ["umsatz".data, "eröffnung".data, "rückruf".data, "skandal".data,
   "boykott".data, "krise".data, "esg".data, "invest".data]

/-- `helpers.classify`: host extraction, source tier (Boulevard checked
before seriös), base score 3/2/1 and the +2 title-keyword bonus. -/
def classify (url title : List Char) : List Char × String × Int :=
  let host := hostOf url
  let t : String :=
    if BOULEVARD_DOMAINS.any (fun d => hasSub d host) then "Boulevard"
    else if SERIOUS_HINTS.any (fun d => hasSub d host) then "seriös"
    else "neutral/spekulativ"
  let score : Int := if t = "seriös" then 3 else if t = "Boulevard" then 2 else 1
  let score := if highImpact.any (fun k => hasSub k (lowerStr title)) then score + 2 else score
  (host, t, score)

end Helpers

/-! ## urgent_watcher.py -/

namespace UrgentWatcher

/-- `URGENT_KEYWORDS` from `urgent_watcher.py`. -/
def URGENT_KEYWORDS : List (List Char) :=
  ["rückruf".data, "skandal".data, "boykott".data, "shitstorm".data,
   "datenschutz".data, "krise".data, "ermittlungen".data, "streik".data]

/-- `urgent_watcher.is_urgent`: lowercase `title + " " + summary` and test
each urgent keyword for substring membership. -/
def is_urgent (title summary : List Char) : Bool :=
  let text := lowerStr (title ++ ' ' :: summary)
  URGENT_KEYWORDS.any (fun k => hasSub k text)

end UrgentWatcher

/-! ## daily_report.py: classification helpers -/

namespace DailyReport

/-- `daily_report.is_urgent`: `re.search(r"rückruf|skandal|boykott|shitstorm|
datenschutz|krise|ermittlungen|streik", text, re.IGNORECASE)`. -/
def is_urgent (text : List Char) : Bool :=
  UrgentWatcher.URGENT_KEYWORDS.any (fun k => hasSub k (lowerStr text))

/-- Viral-context keywords of `daily_report.is_viral`
(`r"tiktok|viral|instagram|x\.com|twitter|trend"`). -/
def viralKw : List (List Char) :=
  ["tiktok".data, "viral".data, "instagram".data, "x.com".data,
   "twitter".data, "trend".data]

/-- `daily_report.is_viral`: non-`.de` host, or a viral-context keyword in
the lowercased `title + " " + summary`. -/
def is_viral (host title summary : List Char) : Bool :=
  let text := lowerStr (title ++ ' ' :: summary)
  if ¬ trailsWith ".de".data host then true
  else viralKw.any (fun k => hasSub k text)

end DailyReport

/-! ## daily_report.py: recency filter -/

namespace DailyReport

/-- `daily_report.parse_datetime`: prefer `published_parsed`, fall back to
`updated_parsed`; an absent/unparseable struct (feedparser yields `None`)
gives `none`.  Times are UTC seconds. -/
def parse_datetime (published_parsed updated_parsed : Option Int) : Option Int :=
  match published_parsed with
  | some t => some t
  | none => updated_parsed

/-- `daily_report.is_recent`: keep when the timestamp is absent, otherwise
compare against `now - timedelta(hours=hours)` (seconds). -/
def is_recent (now : Int) (dt : Option Int) (hours : Int) : Bool :=
  match dt with
  | none => true
  | some t => decide (t ≥ now - hours * 3600)

/-! ### Topic assignment (`daily_report.assign_topic`) -/

def priceKw : List (List Char) :=
  ["preis".data, "rabatt".data, "angebot".data, "aktion".data,
   "prospekt".data, "günstig".data, "billig".data]

def recallKw : List (List Char) :=
  ["rückruf".data, "qualit".data, "verunreinig".data, "schadstoff".data,
   "gesundheit".data, "mangelhaft".data]

def serviceKw : List (List Char) :=
  ["kunden".data, "kundin".data, "service".data, "warteschlange".data,
   "filialleiter".data, "erlebnis".data]

def hrKw : List (List Char) :=
  ["mitarbeiter".data, "tarif".data, "streik".data, "lohn".data,
   "gehalt".data, "personal".data, "arbeitsplatz".data]

def esgKw : List (List Char) :=
  ["nachhaltig".data, "klima".data, "co2".data, "umwelt".data,
   "plastik".data, "bio".data, "tierwohl".data, "esg".data]

def marketKw : List (List Char) :=
  ["aldi".data, "lidl".data, "rewe".data, "edeka".data, "penny".data,
   "netto".data, "discounter".data, "wettbewerb".data, "handel".data]

def imageKw : List (List Char) :=
  ["werbung".data, "kampagne".data, "spot".data, "sponsoring".data,
   "image".data, "marke".data, "branding".data, "puky".data, "hockey".data]

/-- Whether any keyword of a rule occurs in the text
(each `re.search` in `assign_topic` is an alternation of literals). -/
def matchesRule (text : List Char) (kws : List (List Char)) : Bool :=
  kws.any (fun k => hasSub k text)

/-- The lowercased `f"{title} {summary}"` scanned by `assign_topic`. -/
def topicText (title summary : List Char) : List Char :=
  lowerStr (title ++ ' ' :: summary)

/-- `daily_report.assign_topic`: the if-chain from the source, in its
source order (pricing first, then recall, service, HR, ESG, market, image),
defaulting to `"Sonstiges"`. -/
def assign_topic (title summary : List Char) : String :=
  let text := topicText title summary
  if matchesRule text priceKw then "Preise & Aktionen"
  else if matchesRule text recallKw then "Qualität & Rückruf"
  else if matchesRule text serviceKw then "Service & Kundenerlebnis"
  else if matchesRule text hrKw then "Mitarbeiter & HR & Streik"
  else if matchesRule text esgKw then "Nachhaltigkeit & ESG"
  else if matchesRule text marketKw then "Wettbewerb & Markt"
  else if matchesRule text imageKw then "Image & Kampagnen"
  else "Sonstiges"

/-- The ordered (topic, keyword-set) rule table that `assign_topic`
realizes as an if-chain. -/
def topicRules : List (String × List (List Char)) :=
  [("Preise & Aktionen", priceKw),
   ("Qualität & Rückruf", recallKw),
   ("Service & Kundenerlebnis", serviceKw),
   ("Mitarbeiter & HR & Streik", hrKw),
   ("Nachhaltigkeit & ESG", esgKw),
   ("Wettbewerb & Markt", marketKw),
   ("Image & Kampagnen", imageKw)]

/-! ### Per-item score (`daily_report.fetch_news`, scoring block) -/

/-- The crisis keywords of the `re.search(r"rückruf|skandal|boykott|krise",
text_for_score)` bonus in `fetch_news`. -/
def crisisKw : List (List Char) :=
  ["rückruf".data, "skandal".data, "boykott".data, "krise".data]

/-- The sequence of conditional additions that `fetch_news` applies to the
`classify` base score, with the five boolean signals as parameters. -/
def scoreSteps (base : Int) (kauf crisis serios urgent viral : Bool) : Int :=
  let s := base
  let s := if kauf then s + 1 else s
  let s := if crisis then s + 2 else s
  let s := if serios then s + 1 else s
  let s := if urgent then s + 2 else s
  let s := if viral then s + 1 else s
  s

/-- The score `fetch_news` assigns to one feed entry: `classify` base score,
then `+1` for "kaufland" in the text, `+2` for a crisis keyword, `+1` for a
serious source, `+2` if urgent, `+1` if viral. -/
def itemScore (link title desc : List Char) : Int :=
  let c := Helpers.classify link title
  let text := lowerStr (title ++ ' ' :: desc)
  scoreSteps c.2.2
    (hasSub "kaufland".data text)
    (crisisKw.any (fun k => hasSub k text))
    (c.2.1 = "seriös")
    (is_urgent text)
    (is_viral c.1 title desc)

end DailyReport

/-! ## Items and the batch pipeline stages -/

/-- One processed feed item, the dictionary built in `fetch_news`
(`published` in UTC seconds; irrelevant rendering fields omitted). -/
structure Item where
  title : List Char
  url : List Char
  summary : List Char
  source : List Char
  score : Int
  topic : String
  urgent : Bool
  viral : Bool
  published : Option Int
deriving DecidableEq

/-! ### URL deduplication (the `seen` sets of `fetch_news`/`fetch_urgent`) -/

/-- The `seen` loop skeleton shared by `fetch_news` and `fetch_urgent`:
an item whose url is already in `seen` is skipped, otherwise it is kept
and its url recorded. -/
def keepFirstAux (seen : List (List Char)) : List Item → List Item
  | [] => []
  | it :: rest =>
    if seen.contains it.url then keepFirstAux seen rest
    else it :: keepFirstAux (it.url :: seen) rest

/-- URL deduplication: keep the first-seen item of every url. -/
def keepFirstByUrl (items : List Item) : List Item := keepFirstAux [] items

/-! ### Title deduplication (`fetch_news`, `dedup` dict) -/

/-- The dict key `(it["source"], re.sub(r"\s+", " ", it["title"].lower()))`. -/
def titleKey (it : Item) : List Char × List Char :=
  (it.source, collapseWs (lowerStr it.title))

/-- `if it["score"] > dedup[key]["score"]: dedup[key] = it` — the stored
item is replaced only on a strictly greater score. -/
def pick (a b : Item) : Item := if b.score > a.score then b else a

/-- Replace the (unique) stored item with the same title key following the
strict-improvement rule; insertion-ordered dicts are modelled as lists. -/
def replaceIfBetter (x : Item) : List Item → List Item
  | [] => []
  | y :: ys =>
    if titleKey y = titleKey x then pick y x :: ys
    else y :: replaceIfBetter x ys

/-- One iteration of the `dedup` loop of `fetch_news`. -/
def dedupStep (acc : List Item) (x : Item) : List Item :=
  if acc.any (fun y => decide (titleKey y = titleKey x)) then replaceIfBetter x acc
  else acc ++ [x]

/-- The title-deduplication pass of `fetch_news`
(`list(dedup.values())` of the insertion-ordered dict). -/
def dedupTitle (items : List Item) : List Item := items.foldl dedupStep []

/-! ### Ranking (`items.sort(key=lambda x: x["score"], reverse=True)`) -/

/-- Insert an item into a list that is sorted by score descending, after
every element of greater-or-equal score (the later-inserted element loses
ties, which is exactly stability of Python's sort). -/
def insertDesc (x : Item) : List Item → List Item
  | [] => [x]
  | y :: ys => if y.score ≥ x.score then y :: insertDesc x ys else x :: y :: ys

/-- Python's stable `list.sort(key=score, reverse=True)`: the unique
permutation that is non-increasing in score and keeps equal-score items in
input order, realized as a stable insertion sort. -/
def sortDesc (l : List Item) : List Item :=
  l.foldl (fun acc x => insertDesc x acc) []

/-- `top_items = items[:MAX_TOP]` from `daily_report.main`: a pure prefix
slice of the ranked sequence. -/
def topSlice (n : Nat) (ranked : List Item) : List Item := ranked.take n

/-! ### Topic buckets (`daily_report.build_pdf`) -/

/-- `topics_order` from `build_pdf`. -/
def topicsOrder : List String :=
  ["Preise & Aktionen", "Qualität & Rückruf", "Service & Kundenerlebnis",
   "Mitarbeiter & HR & Streik", "Nachhaltigkeit & ESG", "Wettbewerb & Markt",
   "Image & Kampagnen", "Sonstiges"]

/-- `items_by_topic[t]`: appending in iteration order makes each bucket the
order-preserving filter of the batch by topic. -/
def bucketFor (items : List Item) (t : String) : List Item :=
  items.filter (fun i => i.topic = t)

/-- The sections `build_pdf` emits: it walks the fixed `topics_order` list
(only!), skipping empty buckets.  Items whose topic is not in
`topics_order` are stored in `items_by_topic` but never emitted. -/
def pdfSections (items : List Item) : List (String × List Item) :=
  (topicsOrder.map (fun t => (t, bucketFor items t))).filter
    (fun b => !b.2.isEmpty)

/-! ## weekly_reviews.py: risk scores -/

namespace WeeklyReviews

/-- One normalized row of `load_weekly_rows` (the fields consulted by
`compute_risk_scores`); Python floats are modelled as exact rationals. -/
structure Row where
  new7 : Int
  avg7 : ℚ
  avg30 : ℚ
  avg90 : ℚ
  negShare7 : ℚ
deriving DecidableEq

/-- Python's banker's rounding `round(x)` (half to even) on a rational. -/
def pyRound (x : ℚ) : Int :=
  let f := ⌊x⌋
  let r := x - (f : ℚ)
  if r < 1/2 then f
  else if 1/2 < r then f + 1
  else if f % 2 = 0 then f else f + 1

/-- Python's `round(x, 1)`. -/
def pyRound1 (x : ℚ) : ℚ := (pyRound (10 * x) : ℚ) / 10

/-- `avg_new7_all = sum(r["new_7"] for r in rows) / max(len(rows), 1)`. -/
def avgNew7All (rows : List Row) : ℚ :=
  ((rows.map (·.new7)).sum : ℚ) / (max rows.length 1 : ℚ)

/-- Component 1 of `compute_risk_scores`: share of negative reviews,
at most 40 points, only for rows with at least `minNew7` new reviews. -/
def negComponent (minNew7 : Int) (r : Row) : ℚ :=
  if r.new7 ≥ minNew7 then
    if r.negShare7 ≤ 0.2 then 0
    else if r.negShare7 ≥ 0.5 then 40
    else 40 * (r.negShare7 - 0.2) / 0.3
  else 0

/-- Component 2 of `compute_risk_scores`: rating drop 7 vs 30/90 days,
at most 40 points. -/
def dropComponent (minNew7 : Int) (r : Row) : ℚ :=
  let refAvg := if r.avg30 > 0 then r.avg30 else r.avg90
  if refAvg > 0 ∧ r.avg7 > 0 ∧ r.new7 ≥ minNew7 then
    let delta := refAvg - r.avg7
    if delta ≤ 0 then 0
    else if delta ≥ 0.7 then 40
    else 40 * (delta / 0.7)
  else 0

/-- Component 3 of `compute_risk_scores`: review-volume surge,
at most 20 points. -/
def volumeComponent (minNew7 : Int) (r : Row) (avgAll : ℚ) : ℚ :=
  if avgAll > 0 ∧ r.new7 ≥ minNew7 then
    let rel := (r.new7 : ℚ) / avgAll
    if rel ≤ 1 then 0
    else if rel ≥ 3 then 20
    else 20 * (rel - 1) / 2
  else 0

/-- The risk score of one row: sum of the components, capped at 100,
rounded to one decimal. -/
def riskScore (minNew7 : Int) (r : Row) (avgAll : ℚ) : ℚ :=
  let risk := negComponent minNew7 r + dropComponent minNew7 r
    + volumeComponent minNew7 r avgAll
  let risk := if risk > 100 then 100 else risk
  pyRound1 risk

/-- `weekly_reviews.compute_risk_scores`: every row is returned together
with its `risk_score` (the dict copy is modelled as pairing). -/
def compute_risk_scores (minNew7 : Int) (rows : List Row) : List (Row × ℚ) :=
  rows.map (fun r => (r, riskScore minNew7 r (avgNew7All rows)))

end WeeklyReviews

/-! ## Definitions used only by the verification statements -/

/-- Modelled from the claim's wording (the spec's score composition):
tier base (serious 3, tabloid 2, neutral 1) plus +2 for a high-impact
keyword, +2 when critical, +1 when international/viral. -/
def claimSpecScore (tier : String) (keyword critical international : Bool) : Int :=
  (if tier = "seriös" then 3 else if tier = "Boulevard" then 2 else 1)
  + (if keyword then 2 else 0) + (if critical then 2 else 0)
  + (if international then 1 else 0)

/-- First-match evaluation of an ordered rule table (what the if-chain of
`assign_topic` computes). -/
def firstTopic (text : List Char) : List (String × List (List Char)) → String
  | [] => "Sonstiges"
  | r :: rest => if DailyReport.matchesRule text r.2 then r.1 else firstTopic text rest

/-- Non-increasing scores, the order produced by the ranking sort. -/
abbrev ScoreSorted (l : List Item) : Prop :=
  l.Pairwise (fun a b : Item => b.score ≤ a.score)

/-- Left fold of `pick` over a dedup class, starting from an optional
current survivor: the item the `dedup` dict stores after processing the
class members in order. -/
def accPick (cur : Option Item) (l : List Item) : Option Item :=
  l.foldl (fun o b => some (match o with | none => b | some a => pick a b)) cur

/-- Each title key occurs at most once — the invariant of the `dedup`
dict modelled as an association list. -/
def KeysUnique (l : List Item) : Prop :=
  ∀ k, (l.filter (fun y => decide (titleKey y = k))).length ≤ 1

/-! ## Concrete items used in counterexamples and witnesses -/

/-- Same normalized title as `exDupB` but a different source host. -/
def exDupA : Item :=
  ⟨"Rückruf bei Kaufland".data, "https://a.de/1".data, [], "a.de".data,
   1, "Sonstiges", false, false, some 10⟩

def exDupB : Item :=
  ⟨"Rückruf bei Kaufland".data, "https://b.de/1".data, [], "b.de".data,
   5, "Sonstiges", false, false, some 20⟩

/-- Titles that differ only in a trailing non-word character. -/
def exPunctA : Item :=
  ⟨"abc!".data, "u1".data, [], "h.de".data, 3, "Sonstiges", false, false, none⟩

def exPunctB : Item :=
  ⟨"abc".data, "u2".data, [], "h.de".data, 3, "Sonstiges", false, false, none⟩

/-- Same source and title as `exSameB`, smaller score, seen first. -/
def exSameA : Item :=
  ⟨"Neu".data, "u1".data, [], "h.de".data, 1, "Sonstiges", false, false, none⟩

def exSameB : Item :=
  ⟨"Neu".data, "u2".data, [], "h.de".data, 5, "Sonstiges", false, false, none⟩

/-- Equal key and equal score as `exTieB`, but published later. -/
def exTieA : Item :=
  ⟨"t".data, "u1".data, [], "h.de".data, 4, "Sonstiges", false, false, some 100⟩

def exTieB : Item :=
  ⟨"t".data, "u2".data, [], "h.de".data, 4, "Sonstiges", false, false, some 50⟩

/-- Same url as `exUrlB` but a smaller score, seen first. -/
def exUrlA : Item :=
  ⟨"t".data, "u".data, [], "h.de".data, 1, "Sonstiges", false, false, none⟩

def exUrlB : Item :=
  ⟨"t2".data, "u".data, [], "h.de".data, 5, "Sonstiges", false, false, none⟩

/-- Equal scores; by the claimed tiebreak (published descending, url
ascending) `exRankB` would have to come first. -/
def exRankA : Item :=
  ⟨"g".data, "b".data, [], "h.de".data, 5, "Sonstiges", false, false, some 1⟩

def exRankB : Item :=
  ⟨"h".data, "a".data, [], "h.de".data, 5, "Sonstiges", false, false, some 2⟩

/-- The highest-scoring item of the C8 batch, in a topic that the fixed
`topics_order` lists second. -/
def exBuckHi : Item :=
  ⟨"i".data, "u1".data, [], "h.de".data, 10, "Qualität & Rückruf", false, false, none⟩

def exBuckLo : Item :=
  ⟨"j".data, "u2".data, [], "h.de".data, 1, "Preise & Aktionen", false, false, none⟩

/-- An item whose topic is outside the predeclared `topics_order` list. -/
def exOddTopic : Item :=
  ⟨"k".data, "u1".data, [], "h.de".data, 1, "Unbekannt", false, false, none⟩

/-- A weekly-review row with no new reviews in the 7-day window. -/
def exRow0 : WeeklyReviews.Row := ⟨0, 0, 0, 0, 0⟩

/-! ## C4: recency filter -/

/-- C4: the recency filter keeps an item iff its timestamp is absent
(unparseable timestamps are already `none` after `parse_datetime`) or the
item is no older than the configured window: `now - t ≤ hours` (in
seconds); only strictly older items are dropped, and a missing timestamp
always passes. -/
theorem C4_recency_filter (now hours : Int) (dt : Option Int) :
    (DailyReport.is_recent now dt hours = true ↔
      dt = none ∨ ∃ t, dt = some t ∧ now - t ≤ hours * 3600)
    ∧ DailyReport.is_recent now (DailyReport.parse_datetime none none) hours = true := by
  constructor
  · cases dt with
    | none => simp [DailyReport.is_recent]
    | some t =>
      simp [DailyReport.is_recent]
      omega
  · simp [DailyReport.is_recent, DailyReport.parse_datetime]

/-- Witness: a timestamp exactly at the cutoff passes. -/
theorem C4_recency_filter_witness :
    DailyReport.is_recent 129600 (some 0) 36 = true :=
  (C4_recency_filter 129600 36 (some 0)).1.mpr (Or.inr ⟨0, rfl, by norm_num⟩)

/-! ## C1: no de-escalation override exists -/

/-- C1 counterexample: a text containing the critical keyword "skandal"
together with the de-escalation phrases "wieder geöffnet" and
"modernisiert" is still classified as critical by both `is_urgent`
implementations — there is no de-escalation override in the code. -/
theorem C1_counterexample :
    hasSub "skandal".data
        (lowerStr "Skandal: Markt wieder geöffnet und modernisiert".data) = true
    ∧ hasSub "wieder geöffnet".data
        (lowerStr "Skandal: Markt wieder geöffnet und modernisiert".data) = true
    ∧ hasSub "modernisiert".data
        (lowerStr "Skandal: Markt wieder geöffnet und modernisiert".data) = true
    ∧ DailyReport.is_urgent "Skandal: Markt wieder geöffnet und modernisiert".data = true
    ∧ UrgentWatcher.is_urgent "Skandal: Markt wieder geöffnet und modernisiert".data [] = true := by
  decide

/-- C1 amended: criticality is decided solely by the presence of a critical
keyword in the lowercased text; de-escalation phrases are never consulted,
so an item matching both a critical keyword and a de-escalation phrase is
still marked critical. -/
theorem C1_no_deescalation_override :
    (∀ text, DailyReport.is_urgent text = true ↔
        ∃ k ∈ UrgentWatcher.URGENT_KEYWORDS, hasSub k (lowerStr text) = true)
    ∧ (∀ title summary, UrgentWatcher.is_urgent title summary = true ↔
        ∃ k ∈ UrgentWatcher.URGENT_KEYWORDS,
          hasSub k (lowerStr (title ++ ' ' :: summary)) = true) := by
  constructor
  · intro text
    simp [DailyReport.is_urgent, List.any_eq_true]
  · intro title summary
    simp [UrgentWatcher.is_urgent, List.any_eq_true]

/-- Witness for C1: instantiating the amended theorem on a critical text. -/
theorem C1_no_deescalation_override_witness :
    DailyReport.is_urgent "Rückruf nach Entwarnung".data = true :=
  (C1_no_deescalation_override.1 "Rückruf nach Entwarnung".data).mpr
    ⟨"rückruf".data, by decide, by decide⟩

/-! ## C5: score composition -/

/-- C5 counterexample: a serious-tier item with no keyword, no critical and
no international signal scores 4 in the code (the extra `+1` for a serious
source in `fetch_news`), while the claimed composition yields 3. -/
theorem C5_counterexample :
    (Helpers.classify "https://www.sueddeutsche.de/a".data "x".data).2.1 = "seriös"
    ∧ Helpers.highImpact.any (fun k => hasSub k (lowerStr "x".data)) = false
    ∧ DailyReport.is_urgent (lowerStr ("x".data ++ ' ' :: [])) = false
    ∧ DailyReport.is_viral (Helpers.classify "https://www.sueddeutsche.de/a".data "x".data).1
        "x".data [] = false
    ∧ DailyReport.itemScore "https://www.sueddeutsche.de/a".data "x".data [] = 4
    ∧ claimSpecScore "seriös" false false false = 3 := by
  decide

/-- C5 amended: the score is the `classify` base (tier base with tabloid
domains checked first, plus +2 for a high-impact title keyword) plus
strictly additive bonuses: +1 for "kaufland" in the text, +2 for a crisis
keyword, +1 extra for a serious source, +2 when critical/urgent, +1 when
viral/international; toggling the critical signal alone changes the score
by exactly +2 and the viral signal alone by exactly +1. -/
theorem C5_additive_score :
    (∀ link title desc, DailyReport.itemScore link title desc =
        DailyReport.scoreSteps (Helpers.classify link title).2.2
          (hasSub "kaufland".data (lowerStr (title ++ ' ' :: desc)))
          (DailyReport.crisisKw.any (fun k => hasSub k (lowerStr (title ++ ' ' :: desc))))
          ((Helpers.classify link title).2.1 = "seriös")
          (DailyReport.is_urgent (lowerStr (title ++ ' ' :: desc)))
          (DailyReport.is_viral (Helpers.classify link title).1 title desc))
    ∧ (∀ b k c se u v, DailyReport.scoreSteps b k c se u v =
        b + (if k then 1 else 0) + (if c then 2 else 0) + (if se then 1 else 0)
          + (if u then 2 else 0) + (if v then 1 else 0))
    ∧ (∀ b k c se v, DailyReport.scoreSteps b k c se true v
        - DailyReport.scoreSteps b k c se false v = 2)
    ∧ (∀ b k c se u, DailyReport.scoreSteps b k c se u true
        - DailyReport.scoreSteps b k c se u false = 1) := by
  refine ⟨fun _ _ _ => rfl, ?_, ?_, ?_⟩
  · intro b k c se u v
    cases k <;> cases c <;> cases se <;> cases u <;> cases v <;>
      simp [DailyReport.scoreSteps]
  · intro b k c se v
    cases k <;> cases c <;> cases se <;> cases v <;>
      simp [DailyReport.scoreSteps]
  · intro b k c se u
    cases k <;> cases c <;> cases se <;> cases u <;>
      simp [DailyReport.scoreSteps]

/-- Witness for C5: the critical toggle changes a concrete score by 2. -/
theorem C5_additive_score_witness :
    DailyReport.scoreSteps 3 true false true true false
      - DailyReport.scoreSteps 3 true false true false false = 2 :=
  C5_additive_score.2.2.1 3 true false true false

/-! ## C6: topic assignment -/

lemma assign_topic_eq_firstTopic (title summary : List Char) :
    DailyReport.assign_topic title summary =
      firstTopic (DailyReport.topicText title summary) DailyReport.topicRules := rfl

lemma firstTopic_of_all_false {text : List Char}
    {rules : List (String × List (List Char))}
    (h : ∀ r ∈ rules, DailyReport.matchesRule text r.2 = false) :
    firstTopic text rules = "Sonstiges" := by
  induction rules with
  | nil => rfl
  | cons r rest ih =>
    have hr := h r (List.mem_cons_self r rest)
    simp only [firstTopic, hr]
    exact ih (fun x hx => h x (List.mem_cons_of_mem r hx))

lemma firstTopic_mem_of_match {text : List Char}
    {rules : List (String × List (List Char))}
    (h : ∃ r ∈ rules, DailyReport.matchesRule text r.2 = true) :
    firstTopic text rules ∈ rules.map Prod.fst := by
  induction rules with
  | nil => rcases h with ⟨r, hr, _⟩; exact absurd hr (List.not_mem_nil r)
  | cons r rest ih =>
    by_cases hr : DailyReport.matchesRule text r.2
    · simp [firstTopic, hr]
    · rcases h with ⟨x, hx, hmatch⟩
      rcases List.mem_cons.mp hx with rfl | hx2
      · exact absurd hmatch (by simp [hr])
      · have := ih ⟨x, hx2, hmatch⟩
        simp only [firstTopic, hr, if_false, List.map_cons]
        exact List.mem_cons_of_mem _ this

lemma firstTopic_first {text : List Char}
    (pre : List (String × List (List Char))) (r : String × List (List Char))
    (post : List (String × List (List Char)))
    (hpre : ∀ x ∈ pre, DailyReport.matchesRule text x.2 = false)
    (hr : DailyReport.matchesRule text r.2 = true) :
    firstTopic text (pre ++ r :: post) = r.1 := by
  induction pre with
  | nil => simp [firstTopic, hr]
  | cons p ps ih =>
    have hp := hpre p (List.mem_cons_self p ps)
    simp only [List.cons_append, firstTopic, hp, if_false]
    exact ih (fun x hx => hpre x (List.mem_cons_of_mem p hx))

/-- C6 counterexample: "Rückruf" together with "Preis" matches both a
recall keyword and a pricing keyword, yet the code assigns the pricing
topic — the recall rule is checked only second, after "Preise & Aktionen",
so recall does not win over every generic topic. -/
theorem C6_counterexample :
    hasSub "rückruf".data (DailyReport.topicText "Rückruf".data "Preis".data) = true
    ∧ hasSub "preis".data (DailyReport.topicText "Rückruf".data "Preis".data) = true
    ∧ "rückruf".data ∈ DailyReport.recallKw
    ∧ "preis".data ∈ DailyReport.priceKw
    ∧ DailyReport.assign_topic "Rückruf".data "Preis".data = "Preise & Aktionen"
    ∧ DailyReport.assign_topic "Rückruf".data "Preis".data ≠ "Qualität & Rückruf" := by
  decide

/-- C6 amended: `assign_topic` scans the lowercased `title + " " + summary`
against the ordered rule table and returns the first topic whose keyword
set matches; it returns "Sonstiges" exactly when no keyword of any rule
matches.  The order, however, places "Preise & Aktionen" first, before the
recall/safety rule ("Qualität & Rückruf" is only checked second), then the
remaining generic rules. -/
theorem C6_first_match_topic (title summary : List Char) :
    (DailyReport.assign_topic title summary = "Sonstiges" ↔
      ∀ r ∈ DailyReport.topicRules,
        DailyReport.matchesRule (DailyReport.topicText title summary) r.2 = false)
    ∧ (∀ pre r post, DailyReport.topicRules = pre ++ r :: post →
        (∀ x ∈ pre, DailyReport.matchesRule (DailyReport.topicText title summary) x.2 = false) →
        DailyReport.matchesRule (DailyReport.topicText title summary) r.2 = true →
        DailyReport.assign_topic title summary = r.1)
    ∧ (DailyReport.topicRules.map Prod.fst =
        ["Preise & Aktionen", "Qualität & Rückruf", "Service & Kundenerlebnis",
         "Mitarbeiter & HR & Streik", "Nachhaltigkeit & ESG", "Wettbewerb & Markt",
         "Image & Kampagnen"]) := by
  refine ⟨⟨?_, ?_⟩, ?_, by decide⟩
  · intro h
    by_contra hno
    push_neg at hno
    rcases hno with ⟨r, hr, hmatch⟩
    have hmem : firstTopic (DailyReport.topicText title summary) DailyReport.topicRules
        ∈ DailyReport.topicRules.map Prod.fst :=
      firstTopic_mem_of_match ⟨r, hr, by simpa using hmatch⟩
    rw [← assign_topic_eq_firstTopic, h] at hmem
    revert hmem
    decide
  · intro h
    rw [assign_topic_eq_firstTopic]
    exact firstTopic_of_all_false h
  · intro pre r post hsplit hpre hr
    rw [assign_topic_eq_firstTopic, hsplit]
    exact firstTopic_first pre r post hpre hr

/-- Witness for C6: a text with no keyword at all gets topic "Sonstiges",
and the first matching rule wins at a concrete split of the rule table. -/
theorem C6_first_match_topic_witness :
    DailyReport.assign_topic "zzz".data [] = "Sonstiges" :=
  (C6_first_match_topic "zzz".data []).1.mpr (by decide)

/-! ## C8: bucket order -/

/-- C8 counterexample: the batch `[exBuckHi, exBuckLo]` is ranked (scores
10, 1), yet the first emitted bucket is "Preise & Aktionen" containing only
the score-1 item, because `build_pdf` walks the fixed `topics_order` list;
the bucket holding the single highest-scoring item comes second. -/
theorem C8_counterexample :
    pdfSections [exBuckHi, exBuckLo] =
      [("Preise & Aktionen", [exBuckLo]), ("Qualität & Rückruf", [exBuckHi])]
    ∧ exBuckHi.score > exBuckLo.score := by
  decide

/-- C8 amended: `build_pdf` emits the topic buckets in the fixed
`topics_order` priority order (the emitted bucket names form a sublist of
`topics_order`), skipping empty buckets; inside each bucket the items keep
their relative batch order (each bucket is the order-preserving filter of
the batch by its topic).  Buckets are not ordered by maximum member
score. -/
theorem C8_fixed_bucket_order (items : List Item) :
    ((pdfSections items).map Prod.fst).Sublist topicsOrder
    ∧ ∀ b ∈ pdfSections items,
        b.2 = items.filter (fun i => i.topic = b.1) ∧ b.2 ≠ [] := by
  constructor
  · have h : (pdfSections items).Sublist (topicsOrder.map (fun t => (t, bucketFor items t))) :=
      List.filter_sublist _
    have h2 := h.map Prod.fst
    rwa [List.map_map] at h2
  · intro b hb
    rcases List.mem_filter.mp hb with ⟨hmem, hne⟩
    rcases List.mem_map.mp hmem with ⟨t, _, rfl⟩
    refine ⟨rfl, fun hnil => ?_⟩
    rw [hnil] at hne
    simp at hne

/-- Witness for C8: the amended theorem at a concrete singleton batch. -/
theorem C8_fixed_bucket_order_witness :
    ("Preise & Aktionen", [exBuckLo]).2 =
        [exBuckLo].filter (fun i => i.topic = ("Preise & Aktionen", [exBuckLo]).1)
    ∧ ("Preise & Aktionen", [exBuckLo]).2 ≠ [] :=
  (C8_fixed_bucket_order [exBuckLo]).2 ("Preise & Aktionen", [exBuckLo]) (by decide)

/-! ## C9: bucket completeness -/

/-- C9 counterexample: an item whose topic is outside the predeclared
`topics_order` list is dropped — the bucketed output for the singleton
batch `[exOddTopic]` contains no bucket at all, so the item appears in
zero buckets, not exactly one. -/
theorem C9_counterexample :
    exOddTopic ∈ [exOddTopic] ∧ pdfSections [exOddTopic] = [] := by
  decide

/-- C9 amended: every batch item whose topic belongs to the predeclared
`topics_order` list appears in exactly one emitted bucket, and
`assign_topic` only ever produces topics from that list — so inside the
pipeline no item is dropped or duplicated; an item with a topic outside
the list, however, would appear in no bucket. -/
theorem C9_bucket_partition :
    (∀ (items : List Item) (i : Item), i ∈ items → i.topic ∈ topicsOrder →
      (pdfSections items).countP (fun b => decide (i ∈ b.2)) = 1)
    ∧ (∀ title summary, DailyReport.assign_topic title summary ∈ topicsOrder) := by
  constructor
  · intro items i hi htop
    have hpt : ∀ t : String,
        ((decide (i ∈ bucketFor items t)) && !(bucketFor items t).isEmpty)
          = (t == i.topic) := by
      intro t
      by_cases ht : t = i.topic
      · subst ht
        have hmem : i ∈ bucketFor items i.topic := List.mem_filter.mpr ⟨hi, by simp⟩
        have hne : (bucketFor items i.topic).isEmpty = false := by
          rw [← Bool.not_eq_true, List.isEmpty_iff]
          exact List.ne_nil_of_mem hmem
        simp [hmem, hne]
      · have hni : i ∉ bucketFor items t := by
          intro hmem
          have h2 := (List.mem_filter.mp hmem).2
          simp at h2
          exact ht h2.symm
        simp [hni, beq_iff_eq, ht]
    have hcount : (pdfSections items).countP (fun b => decide (i ∈ b.2))
        = topicsOrder.countP (fun t =>
            (decide (i ∈ bucketFor items t)) && !(bucketFor items t).isEmpty) := by
      unfold pdfSections
      rw [List.countP_filter, List.countP_map]
      rfl
    rw [hcount, List.countP_congr (fun t _ => by rw [hpt t])]
    have hnodup : topicsOrder.Nodup := by decide
    simpa [List.count] using List.count_eq_one_of_mem hnodup htop
  · intro title summary
    by_cases h : ∃ r ∈ DailyReport.topicRules,
        DailyReport.matchesRule (DailyReport.topicText title summary) r.2 = true
    · have hmem := firstTopic_mem_of_match h
      rw [← assign_topic_eq_firstTopic] at hmem
      revert hmem
      have : ∀ x ∈ DailyReport.topicRules.map Prod.fst, x ∈ topicsOrder := by decide
      intro hmem
      exact this _ hmem
    · push_neg at h
      rw [assign_topic_eq_firstTopic,
        firstTopic_of_all_false (fun r hr => by simpa using h r hr)]
      decide

/-- Witness for C9: a listed-topic item lands in exactly one bucket. -/
theorem C9_bucket_partition_witness :
    (pdfSections [exBuckLo]).countP (fun b => decide (exBuckLo ∈ b.2)) = 1 :=
  C9_bucket_partition.1 [exBuckLo] exBuckLo (by decide) (by decide)

/-! ## C3: URL deduplication -/

lemma keepFirstAux_filter (u : List Char) :
    ∀ (l : List Item) (seen : List (List Char)),
      (keepFirstAux seen l).filter (fun y => decide (y.url = u)) =
        if seen.contains u then []
        else (l.filter (fun y => decide (y.url = u))).take 1 := by
  intro l
  induction l with
  | nil => intro seen; cases h : seen.contains u <;> simp [keepFirstAux, h]
  | cons it rest ih =>
    intro seen
    by_cases hs : seen.contains it.url
    · rw [keepFirstAux, if_pos hs, ih seen]
      by_cases hu : seen.contains u = true
      · rw [if_pos hu, if_pos hu]
      · rw [if_neg hu, if_neg hu]
        have hne : ¬ it.url = u := fun h => hu (h ▸ hs)
        simp [List.filter_cons, hne]
    · rw [keepFirstAux, if_neg hs]
      by_cases hit : it.url = u
      · subst hit
        rw [if_neg hs]
        have h1 : ((it.url :: seen).contains it.url) = true := by simp
        simp [List.filter_cons, ih, h1]
      · have hne2 : ¬ u = it.url := fun h => hit h.symm
        simp [List.filter_cons, hit, ih, hne2]

/-- C3 counterexample: two items share the url `"u"` with scores 1 and 5 in
that order; URL deduplication keeps the first-seen item, whose score 1 is
not the maximum 5 of the class. -/
theorem C3_counterexample :
    keepFirstByUrl [exUrlA, exUrlB] = [exUrlA]
    ∧ exUrlA.score = 1 ∧ exUrlB.score = 5 ∧ exUrlA.url = exUrlB.url
    ∧ ∀ x ∈ keepFirstByUrl [exUrlA, exUrlB], x.score ≠ 5 := by
  decide

/-- C3 amended: for every url, URL deduplication keeps exactly the
first-seen item among the input items with that url (so a nonempty class
has exactly one survivor, but its score is the first item's score, not
necessarily the class maximum; a later title-dedup pass may still remove
it). -/
theorem C3_first_seen_per_url (items : List Item) (u : List Char) :
    (keepFirstByUrl items).filter (fun y => decide (y.url = u)) =
      (items.filter (fun y => decide (y.url = u))).take 1 := by
  rw [keepFirstByUrl, keepFirstAux_filter]
  simp [List.contains]

/-! ## C7: ranking -/

lemma insertDesc_perm (x : Item) (l : List Item) : List.Perm (insertDesc x l) (x :: l) := by
  induction l with
  | nil => rfl
  | cons y ys ih =>
    rw [insertDesc]
    by_cases h : y.score ≥ x.score
    · rw [if_pos h]
      exact (ih.cons y).trans (List.Perm.swap x y ys)
    · rw [if_neg h]

lemma foldl_insertDesc_perm :
    ∀ (l acc : List Item),
      List.Perm (l.foldl (fun a x => insertDesc x a) acc) (l ++ acc) := by
  intro l
  induction l with
  | nil => intro acc; simp
  | cons x rest ih =>
    intro acc
    have h1 := ih (insertDesc x acc)
    have h2 : List.Perm (rest ++ insertDesc x acc) (rest ++ x :: acc) :=
      List.Perm.append_left rest (insertDesc_perm x acc)
    have h3 : List.Perm (rest ++ x :: acc) (x :: (rest ++ acc)) := List.perm_middle
    exact (h1.trans h2).trans h3

lemma insertDesc_sorted {x : Item} {l : List Item} (h : ScoreSorted l) :
    ScoreSorted (insertDesc x l) := by
  induction l with
  | nil => exact List.pairwise_singleton _ x
  | cons y ys ih =>
    replace h := List.pairwise_cons.mp h
    rw [insertDesc]
    by_cases hc : y.score ≥ x.score
    · rw [if_pos hc]
      refine List.pairwise_cons.mpr ⟨?_, ih h.2⟩
      intro z hz
      rcases List.mem_cons.mp ((insertDesc_perm x ys).mem_iff.mp hz) with rfl | hz2
      · exact hc
      · exact h.1 z hz2
    · rw [if_neg hc]
      push_neg at hc
      refine List.pairwise_cons.mpr ⟨?_, List.pairwise_cons.mpr h⟩
      intro z hz
      rcases List.mem_cons.mp hz with rfl | hz2
      · exact le_of_lt hc
      · exact le_trans (h.1 z hz2) (le_of_lt hc)

lemma foldl_insertDesc_sorted :
    ∀ (l acc : List Item), ScoreSorted acc →
      ScoreSorted (l.foldl (fun a x => insertDesc x a) acc) := by
  intro l
  induction l with
  | nil => intro acc h; exact h
  | cons x rest ih => intro acc h; exact ih (insertDesc x acc) (insertDesc_sorted h)

lemma filter_insertDesc {x : Item} {l : List Item} (s : Int) (h : ScoreSorted l) :
    (insertDesc x l).filter (fun y => decide (y.score = s)) =
      if x.score = s then l.filter (fun y => decide (y.score = s)) ++ [x]
      else l.filter (fun y => decide (y.score = s)) := by
  induction l with
  | nil =>
    by_cases hx : x.score = s <;> simp [insertDesc, List.filter_cons, hx]
  | cons y ys ih =>
    replace h := List.pairwise_cons.mp h
    rw [insertDesc]
    by_cases hc : y.score ≥ x.score
    · rw [if_pos hc]
      rw [List.filter_cons, List.filter_cons]
      by_cases hy : y.score = s
      · simp only [hy, decide_eq_true_eq, if_pos, ih h.2]
        by_cases hx : x.score = s <;> simp [hx]
      · simp only [hy, decide_eq_true_eq, if_neg, ih h.2]
        by_cases hx : x.score = s <;> simp [hx, hy]
    · rw [if_neg hc]
      push_neg at hc
      by_cases hx : x.score = s
      · have hnil : (y :: ys).filter (fun y => decide (y.score = s)) = [] := by
          rw [List.filter_eq_nil_iff]
          intro z hz
          rcases List.mem_cons.mp hz with rfl | hz2
          · simp; omega
          · have := h.1 z hz2
            simp; omega
        rw [if_pos hx, hnil, List.filter_cons]
        simp [hx, hnil]
      · rw [if_neg hx, List.filter_cons]
        simp [hx]

lemma foldl_insertDesc_filter :
    ∀ (l acc : List Item) (s : Int), ScoreSorted acc →
      (l.foldl (fun a x => insertDesc x a) acc).filter (fun y => decide (y.score = s)) =
        acc.filter (fun y => decide (y.score = s))
          ++ l.filter (fun y => decide (y.score = s)) := by
  intro l
  induction l with
  | nil => intro acc s _; simp
  | cons x rest ih =>
    intro acc s h
    have step := ih (insertDesc x acc) s (insertDesc_sorted h)
    rw [List.foldl_cons] at *
    rw [step, filter_insertDesc s h, List.filter_cons]
    by_cases hx : x.score = s <;> simp [hx]

/-- C7 counterexample: two equal-score items where the claimed secondary
tiebreak (published descending, then url ascending) demands `exRankB`
first, but the code's stable score-only sort keeps the input order. -/
theorem C7_counterexample :
    sortDesc [exRankA, exRankB] = [exRankA, exRankB]
    ∧ exRankA.score = exRankB.score
    ∧ exRankA.published = some 1 ∧ exRankB.published = some 2
    ∧ exRankA.url = "b".data ∧ exRankB.url = "a".data := by
  decide

/-- C7 amended: the ranker sorts by score descending only, stably — the
output is a permutation of the batch, has non-increasing scores, and items
of equal score keep their batch order (neither `published_at` nor `url` is
consulted); since it is a pure function, re-ranking the same batch yields
the same order, and Top-N selection is the prefix slice `take n` of the
ranked sequence, with no re-sorting. -/
theorem C7_stable_sort (l : List Item) (n : Nat) (s : Int) :
    List.Perm (sortDesc l) l
    ∧ ScoreSorted (sortDesc l)
    ∧ (sortDesc l).filter (fun y => decide (y.score = s)) =
        l.filter (fun y => decide (y.score = s))
    ∧ topSlice n (sortDesc l) = (sortDesc l).take n := by
  refine ⟨?_, ?_, ?_, rfl⟩
  · simpa using foldl_insertDesc_perm l []
  · exact foldl_insertDesc_sorted l [] (List.Pairwise.nil)
  · simpa using foldl_insertDesc_filter l [] s (List.Pairwise.nil)

/-! ## C2: title deduplication -/

lemma titleKey_pick {y x : Item} (h : titleKey y = titleKey x) :
    titleKey (pick y x) = titleKey x := by
  unfold pick
  by_cases hc : x.score > y.score <;> simp [hc, h]

lemma pick_left_le (a b : Item) : a.score ≤ (pick a b).score := by
  unfold pick
  by_cases hc : b.score > a.score
  · simp [hc]; omega
  · simp [hc]

lemma pick_right_le (a b : Item) : b.score ≤ (pick a b).score := by
  unfold pick
  by_cases hc : b.score > a.score
  · simp [hc]
  · simp [hc]; omega

lemma filter_replaceIfBetter_ne (x : Item) (k : List Char × List Char)
    (hk : ¬ titleKey x = k) :
    ∀ acc : List Item,
      (replaceIfBetter x acc).filter (fun y => decide (titleKey y = k)) =
        acc.filter (fun y => decide (titleKey y = k)) := by
  intro acc
  induction acc with
  | nil => rfl
  | cons y ys ih =>
    rw [replaceIfBetter]
    by_cases hy : titleKey y = titleKey x
    · rw [if_pos hy]
      have h1 : ¬ titleKey (pick y x) = k := by rw [titleKey_pick hy]; exact hk
      have h2 : ¬ titleKey y = k := by rw [hy]; exact hk
      simp [List.filter_cons, h1, h2]
    · rw [if_neg hy]
      simp [List.filter_cons, ih]

lemma filter_replaceIfBetter_eq (x a : Item) :
    ∀ acc : List Item,
      acc.filter (fun y => decide (titleKey y = titleKey x)) = [a] →
      (replaceIfBetter x acc).filter (fun y => decide (titleKey y = titleKey x)) =
        [pick a x] := by
  intro acc
  induction acc with
  | nil => intro h; simp at h
  | cons y ys ih =>
    intro h
    rw [replaceIfBetter]
    by_cases hy : titleKey y = titleKey x
    · rw [if_pos hy]
      rw [List.filter_cons, if_pos (by simpa using hy)] at h
      have hya : y = a := (List.cons_eq_cons.mp h).1
      have hrest : ys.filter (fun y => decide (titleKey y = titleKey x)) = [] :=
        (List.cons_eq_cons.mp h).2
      rw [List.filter_cons, if_pos (by simpa using titleKey_pick hy), hrest, hya]
    · rw [if_neg hy]
      rw [List.filter_cons, if_neg (by simpa using hy)] at h
      rw [List.filter_cons, if_neg (by simpa using hy)]
      exact ih h

lemma length_le_one_eq_headD {m : List Item} (h : m.length ≤ 1) :
    m = m.head?.toList := by
  match m with
  | [] => rfl
  | [a] => rfl
  | a :: b :: rest => simp at h

lemma KU_dedupStep {acc : List Item} (x : Item) (h : KeysUnique acc) :
    KeysUnique (dedupStep acc x) := by
  intro k
  rw [dedupStep]
  by_cases ha : acc.any (fun y => decide (titleKey y = titleKey x)) = true
  · rw [if_pos ha]
    by_cases hk : titleKey x = k
    · subst hk
      have hne : acc.filter (fun y => decide (titleKey y = titleKey x)) ≠ [] := by
        rcases List.any_eq_true.mp ha with ⟨y, hy, hky⟩
        exact List.ne_nil_of_mem (List.mem_filter.mpr ⟨hy, hky⟩)
      have hlen := h (titleKey x)
      rcases List.length_eq_one.mp (Nat.le_antisymm hlen (Nat.one_le_iff_ne_zero.mpr
        (fun h0 => hne (List.length_eq_zero.mp h0)))) with ⟨a, hfa⟩
      rw [filter_replaceIfBetter_eq x a acc hfa]
      simp
    · rw [filter_replaceIfBetter_ne x k hk acc]
      exact h k
  · rw [if_neg ha]
    rw [List.filter_append]
    by_cases hk : titleKey x = k
    · have hfa : acc.filter (fun y => decide (titleKey y = k)) = [] := by
        rw [List.filter_eq_nil_iff]
        intro y hy
        simp only [decide_eq_true_eq]
        intro hyk
        exact (List.any_eq_true.not.mp ha) ⟨y, hy, by simp [hyk, hk]⟩
      rw [hfa]
      simp [List.filter_cons, hk]
    · simp [List.filter_cons, hk]
      exact h k

lemma accPick_cons (cur : Option Item) (b : Item) (t : List Item) :
    accPick cur (b :: t) =
      accPick (some (match cur with | none => b | some a => pick a b)) t := rfl

lemma foldl_dedupStep_filter (k : List Char × List Char) :
    ∀ (l acc : List Item), KeysUnique acc →
      (l.foldl dedupStep acc).filter (fun y => decide (titleKey y = k)) =
        (accPick ((acc.filter (fun y => decide (titleKey y = k))).head?)
          (l.filter (fun y => decide (titleKey y = k)))).toList := by
  intro l
  induction l with
  | nil =>
    intro acc h
    simpa [accPick] using length_le_one_eq_headD (h k)
  | cons x rest ih =>
    intro acc h
    rw [List.foldl_cons, ih (dedupStep acc x) (KU_dedupStep x h)]
    congr 1
    by_cases hkx : titleKey x = k
    · subst hkx
      rw [List.filter_cons, if_pos (by simp), accPick_cons]
      rw [dedupStep]
      by_cases ha : acc.any (fun y => decide (titleKey y = titleKey x)) = true
      · rw [if_pos ha]
        have hne : acc.filter (fun y => decide (titleKey y = titleKey x)) ≠ [] := by
          rcases List.any_eq_true.mp ha with ⟨y, hy, hky⟩
          exact List.ne_nil_of_mem (List.mem_filter.mpr ⟨hy, hky⟩)
        have hlen := h (titleKey x)
        rcases List.length_eq_one.mp (Nat.le_antisymm hlen (Nat.one_le_iff_ne_zero.mpr
          (fun h0 => hne (List.length_eq_zero.mp h0)))) with ⟨a, hfa⟩
        rw [filter_replaceIfBetter_eq x a acc hfa, hfa]
        rfl
      · rw [if_neg ha]
        have hfa : acc.filter (fun y => decide (titleKey y = titleKey x)) = [] := by
          rw [List.filter_eq_nil_iff]
          intro y hy
          simp only [decide_eq_true_eq]
          intro hyk
          exact (List.any_eq_true.not.mp ha) ⟨y, hy, by simp [hyk]⟩
        rw [List.filter_append, hfa]
        simp [List.filter_cons]
    · rw [List.filter_cons, if_neg (by simpa using hkx)]
      rw [dedupStep]
      by_cases ha : acc.any (fun y => decide (titleKey y = titleKey x)) = true
      · rw [if_pos ha, filter_replaceIfBetter_ne x k (fun h2 => hkx h2) acc]
      · rw [if_neg ha, List.filter_append, List.filter_cons,
          if_neg (by simpa using hkx)]
        simp

lemma accPick_le :
    ∀ (l : List Item) (cur : Option Item) (a : Item),
      accPick cur l = some a →
        (∀ b ∈ l, b.score ≤ a.score) ∧ (∀ c, cur = some c → c.score ≤ a.score) := by
  intro l
  induction l with
  | nil =>
    intro cur a h
    refine ⟨by simp, fun c hc => ?_⟩
    rw [hc] at h
    simp [accPick] at h
    rw [h]
  | cons b t ih =>
    intro cur a h
    rw [accPick_cons] at h
    rcases ih _ a h with ⟨ht, hcur⟩
    have hstep := hcur _ rfl
    constructor
    · intro z hz
      rcases List.mem_cons.mp hz with rfl | hz2
      · cases cur with
        | none => exact hstep
        | some c0 => exact le_trans (pick_right_le c0 z) hstep
      · exact ht z hz2
    · intro c hc
      subst hc
      exact le_trans (pick_left_le c b) hstep

/-- C2 counterexample: (i) two items with the same normalized title but
different source hosts are both kept (the dedup key contains the host);
(ii) titles "abc!" and "abc" — identical under the claimed non-word
normalization with trimming — are kept separately (the code only collapses
whitespace runs and never trims); (iii) on equal scores the first-seen item
is kept even though the other was published earlier, so `published_at` is
not a tiebreak. -/
theorem C2_counterexample :
    (dedupTitle [exDupA, exDupB]).length = 2
    ∧ collapseWs (lowerStr exDupA.title) = collapseWs (lowerStr exDupB.title)
    ∧ (dedupTitle [exPunctA, exPunctB]).length = 2
    ∧ exPunctA.source = exPunctB.source
    ∧ dedupTitle [exTieA, exTieB] = [exTieA]
    ∧ exTieA.score = exTieB.score
    ∧ exTieA.published = some 100 ∧ exTieB.published = some 50 := by
  decide

/-- C2 amended: the dedup key is the pair (source host, lowercased title
with whitespace runs collapsed — untrimmed, other characters untouched), so
only items from the same host can collapse; per key exactly one
representative survives, namely the left fold of the strict-improvement
rule over the class (the maximal score, with ties keeping the first-seen
item; `published_at` is never consulted), and the survivor's score is the
maximum score of its class. -/
theorem C2_dedup_characterization (items : List Item) (k : List Char × List Char) :
    ((dedupTitle items).filter (fun y => decide (titleKey y = k)) =
      (accPick none (items.filter (fun y => decide (titleKey y = k)))).toList)
    ∧ (∀ a, (dedupTitle items).filter (fun y => decide (titleKey y = k)) = [a] →
        ∀ i ∈ items, titleKey i = k → i.score ≤ a.score) := by
  have hmain := foldl_dedupStep_filter k items [] (by intro k2; simp)
  rw [dedupTitle]
  constructor
  · simpa using hmain
  · intro a ha i hi hik
    have hsome : accPick none (items.filter (fun y => decide (titleKey y = k)))
        = some a := by
      have h2 : (accPick none (items.filter (fun y => decide (titleKey y = k)))).toList
          = [a] := by
        rw [← ha, hmain]
        simp
      cases hopt : accPick none (items.filter (fun y => decide (titleKey y = k))) with
      | none => rw [hopt] at h2; simp at h2
      | some b => rw [hopt] at h2; simp at h2; rw [h2]
    exact (accPick_le _ none a hsome).1 i
      (List.mem_filter.mpr ⟨hi, by simp [hik]⟩)

/-- Witness for C2: in a concrete same-host class the survivor dominates
the discarded item's score. -/
theorem C2_dedup_characterization_witness : exSameA.score ≤ exSameB.score :=
  (C2_dedup_characterization [exSameA, exSameB] (titleKey exSameA)).2
    exSameB (by decide) exSameA (by decide) (by decide)

/-! ## C10: weekly risk scores -/

namespace WeeklyReviews

lemma pyRound_nonneg {x : ℚ} (hx : 0 ≤ x) : 0 ≤ pyRound x := by
  unfold pyRound
  dsimp only
  have hf : (0:ℤ) ≤ ⌊x⌋ := Int.floor_nonneg.mpr hx
  split_ifs <;> omega

lemma pyRound_le_1000 {x : ℚ} (hx : x ≤ 1000) : pyRound x ≤ 1000 := by
  unfold pyRound
  have hf : ⌊x⌋ ≤ 1000 := by
    have h := Int.floor_le_floor hx
    simpa using h
  have key : (⌊x⌋ : ℚ) ≤ x - 1/2 → ⌊x⌋ + 1 ≤ 1000 := by
    intro hle
    have h3 : (⌊x⌋ : ℚ) < 1000 := by linarith
    have h4 : ⌊x⌋ < 1000 := by exact_mod_cast h3
    omega
  dsimp only
  split_ifs with h1 h2 h3
  · exact hf
  · exact key (by linarith)
  · exact hf
  · exact key (by linarith)

lemma pyRound1_bounds {x : ℚ} (h0 : 0 ≤ x) (h1 : x ≤ 100) :
    0 ≤ pyRound1 x ∧ pyRound1 x ≤ 100 := by
  unfold pyRound1
  constructor
  · apply div_nonneg _ (by norm_num)
    exact_mod_cast pyRound_nonneg (by linarith)
  · rw [div_le_iff₀ (by norm_num : (0:ℚ) < 10)]
    have h := pyRound_le_1000 (x := 10 * x) (by linarith)
    have h2 : ((pyRound (10 * x)) : ℚ) ≤ 1000 := by exact_mod_cast h
    linarith

lemma pyRound1_zero : pyRound1 0 = 0 := by
  norm_num [pyRound1, pyRound]

lemma negComponent_bounds (m : Int) (r : Row) :
    0 ≤ negComponent m r ∧ negComponent m r ≤ 40 := by
  unfold negComponent
  split_ifs with h1 h2 h3
  · norm_num
  · norm_num
  · push_neg at h2 h3
    constructor
    · apply div_nonneg _ (by norm_num)
      nlinarith
    · rw [div_le_iff₀ (by norm_num : (0:ℚ) < 0.3)]
      nlinarith
  · norm_num

lemma dropComponent_bounds (m : Int) (r : Row) :
    0 ≤ dropComponent m r ∧ dropComponent m r ≤ 40 := by
  unfold dropComponent
  dsimp only
  by_cases h30 : r.avg30 > 0
  · rw [if_pos h30]
    split_ifs with h1 h2 h3
    · norm_num
    · norm_num
    · push_neg at h2 h3
      constructor
      · apply mul_nonneg (by norm_num)
        apply div_nonneg _ (by norm_num)
        linarith
      · rw [show (40:ℚ) * ((r.avg30 - r.avg7) / 0.7) = 40 * (r.avg30 - r.avg7) / 0.7 from by
          ring]
        rw [div_le_iff₀ (by norm_num : (0:ℚ) < 0.7)]
        nlinarith
    · norm_num
  · rw [if_neg h30]
    split_ifs with h1 h2 h3
    · norm_num
    · norm_num
    · push_neg at h2 h3
      constructor
      · apply mul_nonneg (by norm_num)
        apply div_nonneg _ (by norm_num)
        linarith
      · rw [show (40:ℚ) * ((r.avg90 - r.avg7) / 0.7) = 40 * (r.avg90 - r.avg7) / 0.7 from by
          ring]
        rw [div_le_iff₀ (by norm_num : (0:ℚ) < 0.7)]
        nlinarith
    · norm_num

lemma volumeComponent_bounds (m : Int) (r : Row) (avgAll : ℚ) :
    0 ≤ volumeComponent m r avgAll ∧ volumeComponent m r avgAll ≤ 20 := by
  unfold volumeComponent
  dsimp only
  split_ifs with h1 h2 h3
  · norm_num
  · norm_num
  · push_neg at h2 h3
    constructor
    · apply div_nonneg _ (by norm_num)
      nlinarith
    · rw [div_le_iff₀ (by norm_num : (0:ℚ) < 2)]
      nlinarith
  · norm_num

lemma components_zero (m : Int) (r : Row) (avgAll : ℚ) (h : r.new7 < m) :
    negComponent m r = 0 ∧ dropComponent m r = 0 ∧ volumeComponent m r avgAll = 0 := by
  have hn : ¬ r.new7 ≥ m := not_le.mpr h
  refine ⟨?_, ?_, ?_⟩
  · simp [negComponent, hn]
  · simp [dropComponent, hn]
  · simp [volumeComponent, hn]

lemma riskScore_bounds (m : Int) (r : Row) (avgAll : ℚ) :
    0 ≤ riskScore m r avgAll ∧ riskScore m r avgAll ≤ 100 := by
  have hn := negComponent_bounds m r
  have hd := dropComponent_bounds m r
  have hv := volumeComponent_bounds m r avgAll
  unfold riskScore
  dsimp only
  split_ifs with hc
  · exact pyRound1_bounds (by norm_num) (by norm_num)
  · push_neg at hc
    exact pyRound1_bounds (by linarith [hn.1, hd.1, hv.1]) hc

lemma riskScore_zero (m : Int) (r : Row) (avgAll : ℚ) (h : r.new7 < m) :
    riskScore m r avgAll = 0 := by
  rcases components_zero m r avgAll h with ⟨e1, e2, e3⟩
  unfold riskScore
  dsimp only
  rw [e1, e2, e3]
  norm_num [pyRound1_zero]

end WeeklyReviews

/-- C10: `compute_risk_scores` assigns every row a risk score between 0
and 100, and every row with fewer than `MIN_NEW_7` new reviews in the
7-day window gets risk score exactly 0 (all three components are gated on
`new_7 >= MIN_NEW_7`). -/
theorem C10_risk_score_bounds (minNew7 : Int) (rows : List WeeklyReviews.Row)
    (p : WeeklyReviews.Row × ℚ)
    (hp : p ∈ WeeklyReviews.compute_risk_scores minNew7 rows) :
    0 ≤ p.2 ∧ p.2 ≤ 100 ∧ (p.1.new7 < minNew7 → p.2 = 0) := by
  rcases List.mem_map.mp hp with ⟨r, _, rfl⟩
  refine ⟨(WeeklyReviews.riskScore_bounds _ _ _).1,
    (WeeklyReviews.riskScore_bounds _ _ _).2, fun h => ?_⟩
  exact WeeklyReviews.riskScore_zero _ _ _ h

/-- Witness for C10: a row with 0 new reviews (below the default threshold
3) gets risk score 0, inside the bounds. -/
theorem C10_risk_score_bounds_witness :
    0 ≤ (exRow0, WeeklyReviews.riskScore 3 exRow0 (WeeklyReviews.avgNew7All [exRow0])).2
    ∧ (exRow0, WeeklyReviews.riskScore 3 exRow0 (WeeklyReviews.avgNew7All [exRow0])).2 ≤ 100
    ∧ ((exRow0, WeeklyReviews.riskScore 3 exRow0
        (WeeklyReviews.avgNew7All [exRow0])).1.new7 < 3 →
        (exRow0, WeeklyReviews.riskScore 3 exRow0
          (WeeklyReviews.avgNew7All [exRow0])).2 = 0) :=
  C10_risk_score_bounds 3 [exRow0] _ (by simp [WeeklyReviews.compute_risk_scores])
